import Mathlib

/-!
# Verification of the `iprange` crate

Shallow embedding of the crate's modules and theorems about them.

The embedding covers the current revision (`src/bits.rs`, `src/iprange.rs`,
`src/ipv4.rs`, `src/ipv6.rs`) and, in the `LibRev` namespace, the older
revision kept in `src/lib.rs`.

Machine integers (`u32`, `u128`, `u8`) are modelled as `Nat`; every value the
code manipulates stays below the corresponding width, which the definitions
make explicit (addresses are packed from bounded components, masks only set
bits below the width).  Rust `Result` is `RResult`, Rust panics are `Option`
(`none` = panic).  The standard library's address/integer text codecs
(`Ipv4Addr::from_str`, `Ipv6Addr::from_str`, their `Display` impls,
`u8::from_str`) are external collaborators of the crate (spec §1) and are
modelled from the spec's description of them; each such definition is marked
`Modelled from the spec`.
-/

/-- Rust's `Result` (constructors `Ok`/`Err`), with decidable equality so
claims can be settled on concrete inputs by evaluation. -/
inductive RResult (ε α : Type) where
  | Ok (val : α)
  | Err (err : ε)
deriving DecidableEq

/-- `Result::map`-style functorial action used by the `?`-and-wrap pattern. -/
def RResult.map {ε α β : Type} (f : α → β) : RResult ε α → RResult ε β
  | .Ok v => .Ok (f v)
  | .Err e => .Err e

/-- `std::net::Ipv4Addr`: four octets, most significant first. -/
structure Ipv4Addr where
  o1 : Fin 256
  o2 : Fin 256
  o3 : Fin 256
  o4 : Fin 256
deriving DecidableEq

/-- `Ipv4Addr::octets()`: the four octets, most significant first. -/
def Ipv4Addr.octets (ip : Ipv4Addr) : List Nat :=
  [ip.o1.val, ip.o2.val, ip.o3.val, ip.o4.val]

/-- `std::net::Ipv6Addr`: eight 16-bit segments, most significant first. -/
structure Ipv6Addr where
  s1 : Fin 65536
  s2 : Fin 65536
  s3 : Fin 65536
  s4 : Fin 65536
  s5 : Fin 65536
  s6 : Fin 65536
  s7 : Fin 65536
  s8 : Fin 65536
deriving DecidableEq

/-- `Ipv6Addr::segments()`: the eight segments, most significant first. -/
def Ipv6Addr.segments (ip : Ipv6Addr) : List Nat :=
  [ip.s1.val, ip.s2.val, ip.s3.val, ip.s4.val,
   ip.s5.val, ip.s6.val, ip.s7.val, ip.s8.val]

/-- `bits::ipv4_to_u32`: big-endian packing of the octets,
`octets.iter().rev().enumerate().fold(0, |acc, (count, bits)| acc | (bits << (count * 8)))`. -/
def ipv4_to_u32 (ip : Ipv4Addr) : Nat :=
  (ip.octets.reverse.enum).foldl (fun acc cb => acc ||| (cb.2 <<< (cb.1 * 8))) 0

/-- `bits::ipv6_to_u128`: big-endian packing of the segments. -/
def ipv6_to_u128 (ip : Ipv6Addr) : Nat :=
  (ip.segments.reverse.enum).foldl (fun acc cb => acc ||| (cb.2 <<< (cb.1 * 16))) 0

/-- `u32::leading_zeros` for values below `2 ^ 32`: the number of positions,
scanning from bit 31 downwards, before the first set bit. -/
def u32_leading_zeros (x : Nat) : Nat :=
  (((List.range 32).reverse).takeWhile (fun i => !(x.testBit i))).length

/-- `u128::leading_zeros` for values below `2 ^ 128`. -/
def u128_leading_zeros (x : Nat) : Nat :=
  (((List.range 128).reverse).takeWhile (fun i => !(x.testBit i))).length

/-- `bits::number_of_common_prefix_bits_u32`: `(a ^ b).leading_zeros()`. -/
def number_of_common_prefix_bits_u32 (a b : Nat) : Nat :=
  u32_leading_zeros (a ^^^ b)

/-- `bits::number_of_common_prefix_bits_u128`: `(a ^ b).leading_zeros()`. -/
def number_of_common_prefix_bits_u128 (a b : Nat) : Nat :=
  u128_leading_zeros (a ^^^ b)

/-- `bits::prefix_mask_u32`: `for i in (32 - leading_zeros)..32 { mask |= 1 << i }`.
The source asserts `leading_zeros <= 32`; below that bound the Rust iteration
`(32 - leading_zeros)..32` has exactly `leading_zeros` elements, which is how
the loop is rendered here. -/
def prefix_mask_u32 (leading_zeros : Nat) : Nat :=
  (List.range' (32 - leading_zeros) leading_zeros).foldl
    (fun mask i => mask ||| (1 <<< i)) 0

/-- `bits::prefix_mask_u128`: same loop over `(128 - leading_zeros)..128`. -/
def prefix_mask_u128 (leading_zeros : Nat) : Nat :=
  (List.range' (128 - leading_zeros) leading_zeros).foldl
    (fun mask i => mask ||| (1 <<< i)) 0

/-- `bits::postfix_mask_u32`: `for i in 0..trailing_zeros { mask |= 1 << i }`
(source asserts `trailing_zeros <= 32`). -/
def postfix_mask_u32 (trailing_zeros : Nat) : Nat :=
  (List.range trailing_zeros).foldl (fun mask i => mask ||| (1 <<< i)) 0

/-- `bits::postfix_mask_u128`: the same loop, 128-bit width. -/
def postfix_mask_u128 (trailing_zeros : Nat) : Nat :=
  (List.range trailing_zeros).foldl (fun mask i => mask ||| (1 <<< i)) 0

/-- Rust `!x` on `u32`: complement within 32 bits (for `x < 2 ^ 32`). -/
def u32_not (x : Nat) : Nat := (2 ^ 32 - 1) ^^^ x

/-- Rust `!x` on `u128`: complement within 128 bits (for `x < 2 ^ 128`). -/
def u128_not (x : Nat) : Nat := (2 ^ 128 - 1) ^^^ x

/-- `iprange::IpAddrRangeError`.  The enum in `iprange.rs` declares
`MixedIpVersions`, `ParseError` and `InvalidNetworkAddress`; `ipv6.rs`
additionally references `IpAddrRangeParseError` and `InvalidCidr`, so the
embedding carries the union of the variants the source names. -/
inductive IpAddrRangeError where
  | MixedIpVersions
  | ParseError
  | InvalidNetworkAddress
  | IpAddrRangeParseError
  | InvalidCidr (cidr : Nat)
deriving DecidableEq

/-- `ipv4::IpAddrRangeV4`: a network address plus CIDR prefix length. -/
structure IpAddrRangeV4 where
  network_address : Ipv4Addr
  cidr : Nat
deriving DecidableEq

/-- `IpAddrRangeV4::new`: stores both fields verbatim; the hypothesis models
the `assert!(cidr <= 32)`. -/
def IpAddrRangeV4.new (network_address : Ipv4Addr) (cidr : Nat)
    (_h : cidr ≤ 32) : IpAddrRangeV4 :=
  ⟨network_address, cidr⟩

/-- `ipv4::IpAddrRangeV4::from_range`. -/
def IpAddrRangeV4.from_range (network_address broadcast_address : Ipv4Addr) :
    RResult IpAddrRangeError IpAddrRangeV4 :=
  if network_address = broadcast_address then
    .Ok ⟨network_address, 32⟩
  else
    let network := ipv4_to_u32 network_address
    let broadcast := ipv4_to_u32 broadcast_address
    let cidr := number_of_common_prefix_bits_u32 network broadcast
    let net_mask := prefix_mask_u32 cidr
    let host_mask := u32_not net_mask
    if network &&& host_mask ≠ 0 then .Err .InvalidNetworkAddress
    else if broadcast ≠ network ||| host_mask then .Err .InvalidNetworkAddress
    else .Ok ⟨network_address, cidr⟩

/-- `ipv6::IpAddrRangeV6`. -/
structure IpAddrRangeV6 where
  network_address : Ipv6Addr
  cidr : Nat
deriving DecidableEq

/-- `IpAddrRangeV6::new`: stores both fields verbatim; the hypothesis models
the `assert!(cidr <= 128)`. -/
def IpAddrRangeV6.new (network_address : Ipv6Addr) (cidr : Nat)
    (_h : cidr ≤ 128) : IpAddrRangeV6 :=
  ⟨network_address, cidr⟩

/-- `ipv6::IpAddrRangeV6::from_range`. -/
def IpAddrRangeV6.from_range (network_address broadcast_address : Ipv6Addr) :
    RResult IpAddrRangeError IpAddrRangeV6 :=
  if network_address = broadcast_address then
    .Ok ⟨network_address, 128⟩
  else
    let network := ipv6_to_u128 network_address
    let broadcast := ipv6_to_u128 broadcast_address
    let cidr := number_of_common_prefix_bits_u128 network broadcast
    let net_mask := prefix_mask_u128 cidr
    let host_mask := u128_not net_mask
    if network &&& host_mask ≠ 0 then .Err .InvalidNetworkAddress
    else if broadcast ≠ network ||| host_mask then .Err .InvalidNetworkAddress
    else .Ok ⟨network_address, cidr⟩

/-- `std::net::IpAddr`: family-tagged address. -/
inductive IpAddr where
  | V4 (addr : Ipv4Addr)
  | V6 (addr : Ipv6Addr)
deriving DecidableEq

/-- `iprange::IpAddrRange`: family-tagged range. -/
inductive IpAddrRange where
  | V4 (range : IpAddrRangeV4)
  | V6 (range : IpAddrRangeV6)
deriving DecidableEq

/-- `iprange::IpAddrRange::from_range`: family dispatch; the `?` operator on
the family-specific result is `RResult.map` into the matching variant. -/
def IpAddrRange.from_range (start end_ : IpAddr) :
    RResult IpAddrRangeError IpAddrRange :=
  match start, end_ with
  | .V4 s4, .V4 e4 => (IpAddrRangeV4.from_range s4 e4).map IpAddrRange.V4
  | .V6 s6, .V6 e6 => (IpAddrRangeV6.from_range s6 e6).map IpAddrRange.V6
  | _, _ => .Err .MixedIpVersions

/-- `iprange::IpAddrRange::is_ipv4`. -/
def IpAddrRange.is_ipv4 : IpAddrRange → Bool
  | .V4 _ => true
  | .V6 _ => false

/-- `iprange::IpAddrRange::is_ipv6`. -/
def IpAddrRange.is_ipv6 : IpAddrRange → Bool
  | .V4 _ => false
  | .V6 _ => true

/-! ## Text codecs

Strings are modelled as `List Char`.  The address/integer component codecs are
the standard library's; they are external to the crate and are modelled from
the spec (§1, §4.3, §6). -/

/-- Value of a decimal or (lowercase/uppercase) hexadecimal digit character. -/
def digitToNat (c : Char) : Nat :=
  if c.isDigit then c.toNat - 48
  else if 'a' ≤ c ∧ c ≤ 'f' then c.toNat - 87
  else c.toNat - 55

/-- Hexadecimal digit recognizer. -/
def isHexDigitChar (c : Char) : Bool :=
  c.isDigit || ('a' ≤ c && c ≤ 'f') || ('A' ≤ c && c ≤ 'F')

/-- Digit-extraction loop for `charsOfNat`: emits the base-`b` digits of `n`
most significant first, recursing structurally on `fuel` (any `fuel ≥ n`
with `b ≥ 2` is enough) so that concrete inputs evaluate inside `decide`. -/
def charsOfNatAux (b : Nat) : Nat → Nat → List Char
  | 0, _ => []
  | _ + 1, 0 => []
  | fuel + 1, n + 1 =>
    charsOfNatAux b fuel ((n + 1) / b) ++ [Nat.digitChar ((n + 1) % b)]

/-- Modelled from the spec: rendering of an unsigned integer in base `b`
(most significant digit first), as done by the standard `Display`/formatting
machinery the crate delegates to. -/
def charsOfNat (b n : Nat) : List Char :=
  if n = 0 then ['0'] else charsOfNatAux b n n

/-- Modelled from the spec: parse a nonempty all-`valid` digit string in base
`b`, most significant digit first (the standard integer parsers the crate
delegates to, minus their optional sign handling, which no claim touches). -/
def parseNatBase (b : Nat) (valid : Char → Bool) (s : List Char) : Option Nat :=
  if s ≠ [] ∧ s.all valid then
    some (s.foldl (fun acc c => acc * b + digitToNat c) 0)
  else none

/-- Decimal unsigned-integer parse. -/
def parseDecNat (s : List Char) : Option Nat := parseNatBase 10 Char.isDigit s

/-- Hexadecimal unsigned-integer parse. -/
def parseHexNat (s : List Char) : Option Nat := parseNatBase 16 isHexDigitChar s

/-- Modelled from the spec: `u8::from_str` — decimal digits, value within
`u8` range (overflow is a parse failure, not truncation). -/
def parseU8 (s : List Char) : Option Nat :=
  match parseDecNat s with
  | some v => if v ≤ 255 then some v else none
  | none => none

/-- Split a character list at every occurrence of `sep` (the separator is
dropped; empty components are kept, as with Rust's `str::split`). -/
def splitSep (sep : Char) : List Char → List (List Char)
  | [] => [[]]
  | c :: rest =>
    if c = sep then [] :: splitSep sep rest
    else
      match splitSep sep rest with
      | [] => [[c]]
      | h :: t => (c :: h) :: t

/-- One dotted-quad octet: nonempty decimal digits, value below 256. -/
def parseByte (s : List Char) : Option (Fin 256) :=
  match parseDecNat s with
  | some v => if h : v ≤ 255 then some ⟨v, by omega⟩ else none
  | none => none

/-- Modelled from the spec: `Ipv4Addr::from_str` — the standard dotted-quad
literal form, four decimal octets separated by `.` (permissive about leading
zeros, which no theorem here depends on). -/
def parseIpv4 (s : List Char) : Option Ipv4Addr :=
  match splitSep '.' s with
  | [p1, p2, p3, p4] =>
    (parseByte p1).bind fun b1 =>
      (parseByte p2).bind fun b2 =>
        (parseByte p3).bind fun b3 =>
          (parseByte p4).bind fun b4 => some ⟨b1, b2, b3, b4⟩
  | _ => none

/-- One colon-hex group: nonempty hexadecimal digits, value below 65536. -/
def parseHexGroup (s : List Char) : Option (Fin 65536) :=
  match parseHexNat s with
  | some v => if h : v ≤ 65535 then some ⟨v, by omega⟩ else none
  | none => none

/-- Modelled from the spec: `Ipv6Addr::from_str` — the standard colon-hex
literal form, restricted to the full eight-group spelling (no `::`
compression and no embedded dotted-quad tail; the claims touched by this
definition only rely on it accepting what `formatIpv6` produces and on the
grammar containing no `/`). -/
def parseIpv6 (s : List Char) : Option Ipv6Addr :=
  match splitSep ':' s with
  | [p1, p2, p3, p4, p5, p6, p7, p8] =>
    (parseHexGroup p1).bind fun g1 =>
      (parseHexGroup p2).bind fun g2 =>
        (parseHexGroup p3).bind fun g3 =>
          (parseHexGroup p4).bind fun g4 =>
            (parseHexGroup p5).bind fun g5 =>
              (parseHexGroup p6).bind fun g6 =>
                (parseHexGroup p7).bind fun g7 =>
                  (parseHexGroup p8).bind fun g8 =>
                    some ⟨g1, g2, g3, g4, g5, g6, g7, g8⟩
  | _ => none

/-- Modelled from the spec: `Display for Ipv4Addr` — dotted quad, decimal. -/
def formatIpv4 (ip : Ipv4Addr) : List Char :=
  charsOfNat 10 ip.o1.val ++ '.' :: (charsOfNat 10 ip.o2.val
    ++ '.' :: (charsOfNat 10 ip.o3.val ++ '.' :: charsOfNat 10 ip.o4.val))

/-- Modelled from the spec: `Display for Ipv6Addr` — colon-hex, rendered in
the full eight-group lowercase spelling (the standard formatter compresses
zero runs; the theorems only rely on the output round-tripping through
`parseIpv6`, being nonempty and containing no `/`). -/
def formatIpv6 (ip : Ipv6Addr) : List Char :=
  charsOfNat 16 ip.s1.val ++ ':' :: (charsOfNat 16 ip.s2.val
    ++ ':' :: (charsOfNat 16 ip.s3.val ++ ':' :: (charsOfNat 16 ip.s4.val
    ++ ':' :: (charsOfNat 16 ip.s5.val ++ ':' :: (charsOfNat 16 ip.s6.val
    ++ ':' :: (charsOfNat 16 ip.s7.val ++ ':' :: charsOfNat 16 ip.s8.val))))))

/-- `Display for IpAddrRangeV4`: `write!("{}/{}", network_address, cidr)`. -/
def IpAddrRangeV4.display (r : IpAddrRangeV4) : List Char :=
  formatIpv4 r.network_address ++ '/' :: charsOfNat 10 r.cidr

/-- `Display for IpAddrRangeV6`: `write!("{}/{}", network_address, cidr)`. -/
def IpAddrRangeV6.display (r : IpAddrRangeV6) : List Char :=
  formatIpv6 r.network_address ++ '/' :: charsOfNat 10 r.cidr

/-- `s.find('/')` followed by the two `split_at` calls of
`ipv4::from_str`: the pieces strictly before and strictly after the FIRST
`/`, or `none` when the string has no `/`. -/
def splitAtFirstSlash : List Char → Option (List Char × List Char)
  | [] => none
  | c :: rest =>
    if c = '/' then some ([], rest)
    else
      match splitAtFirstSlash rest with
      | some (a, m) => some (c :: a, m)
      | none => none

/-- `s.rfind('/')` followed by the two slices of `ipv6::from_str`: the
pieces strictly before and strictly after the LAST `/`. -/
def splitAtLastSlash : List Char → Option (List Char × List Char)
  | [] => none
  | c :: rest =>
    match splitAtLastSlash rest with
    | some (a, m) => some (c :: a, m)
    | none => if c = '/' then some ([], rest) else none

/-- `ipv4::IpAddrRangeV4::from_str` (`FromStr` impl): split at the first
`/`, parse the address side, parse the mask side as `u8`, reject a prefix
above 32.  Both component-parser failures surface as `ParseError` through the
crate's `From` impls. -/
def IpAddrRangeV4.from_str (s : List Char) :
    RResult IpAddrRangeError IpAddrRangeV4 :=
  match splitAtFirstSlash s with
  | none => .Err .ParseError
  | some (address_str, mask_str) =>
    match parseIpv4 address_str with
    | none => .Err .ParseError
    | some network_address =>
      match parseU8 mask_str with
      | none => .Err .ParseError
      | some cidr =>
        if h : 32 < cidr then .Err .ParseError
        else .Ok (IpAddrRangeV4.new network_address cidr (by omega))

/-- `ipv6::IpAddrRangeV6::from_str` (`FromStr` impl): split at the last `/`,
reject empty sides with `IpAddrRangeParseError`, parse the address side, parse
the mask side as `u8`, reject a prefix above 128 with `InvalidCidr`. -/
def IpAddrRangeV6.from_str (s : List Char) :
    RResult IpAddrRangeError IpAddrRangeV6 :=
  match splitAtLastSlash s with
  | none => .Err .IpAddrRangeParseError
  | some (address_str, mask_str) =>
    if address_str.length = 0 ∨ mask_str.length = 0 then
      .Err .IpAddrRangeParseError
    else
      match parseIpv6 address_str with
      | none => .Err .ParseError
      | some network_address =>
        match parseU8 mask_str with
        | none => .Err .ParseError
        | some cidr =>
          if h : 128 < cidr then .Err (.InvalidCidr cidr)
          else .Ok (IpAddrRangeV6.new network_address cidr (by omega))

/-- Modelled from the spec (§4.3 `CidrCodec.parse`, IPv4 instance): locate
the LAST `/`, fail if absent or if either side of the split is empty, then
parse the address side, parse the prefix side, and bound-check the prefix.
Error values are the ones the v4 code has available (its single parse kind
plays the role of the spec's `MalformedCidrString`/`AddressParseFailure`/
`PrefixParseFailure`, and — deliberately, so that this definition differs
from `IpAddrRangeV4.from_str` only in the split-and-empty-check step that
claim C5 is about — the out-of-range prefix also keeps the code's
`ParseError`). -/
def cidrParseSpecV4 (s : List Char) : RResult IpAddrRangeError IpAddrRangeV4 :=
  match splitAtLastSlash s with
  | none => .Err .ParseError
  | some (address_str, mask_str) =>
    if address_str.length = 0 ∨ mask_str.length = 0 then .Err .ParseError
    else
      match parseIpv4 address_str with
      | none => .Err .ParseError
      | some network_address =>
        match parseU8 mask_str with
        | none => .Err .ParseError
        | some cidr =>
          if h : 32 < cidr then .Err .ParseError
          else .Ok (IpAddrRangeV4.new network_address cidr (by omega))

/-- Modelled from the spec (§4.3 `CidrCodec.parse`, IPv6 instance): last
`/`, explicit empty-side rejection, address parse, prefix parse, bound
check, with the v6 code's error values (`IpAddrRangeParseError` as the
malformed-string kind, `InvalidCidr` as the out-of-range-prefix kind). -/
def cidrParseSpecV6 (s : List Char) : RResult IpAddrRangeError IpAddrRangeV6 :=
  match splitAtLastSlash s with
  | none => .Err .IpAddrRangeParseError
  | some (address_str, mask_str) =>
    if address_str.length = 0 ∨ mask_str.length = 0 then
      .Err .IpAddrRangeParseError
    else
      match parseIpv6 address_str with
      | none => .Err .ParseError
      | some network_address =>
        match parseU8 mask_str with
        | none => .Err .ParseError
        | some cidr =>
          if h : 128 < cidr then .Err (.InvalidCidr cidr)
          else .Ok (IpAddrRangeV6.new network_address cidr (by omega))

/-- The cidr the general path of `from_range` derives (the code's `cidr`
binding), IPv4. -/
def derived_cidr_v4 (network broadcast : Ipv4Addr) : Nat :=
  number_of_common_prefix_bits_u32 (ipv4_to_u32 network) (ipv4_to_u32 broadcast)

/-- The code's `host_mask` binding (`!prefix_mask_u32(cidr)`), IPv4. -/
def derived_host_mask_v4 (network broadcast : Ipv4Addr) : Nat :=
  u32_not (prefix_mask_u32 (derived_cidr_v4 network broadcast))

/-- The cidr the general path of `from_range` derives, IPv6. -/
def derived_cidr_v6 (network broadcast : Ipv6Addr) : Nat :=
  number_of_common_prefix_bits_u128 (ipv6_to_u128 network) (ipv6_to_u128 broadcast)

/-- The code's `host_mask` binding (`!prefix_mask_u128(cidr)`), IPv6. -/
def derived_host_mask_v6 (network broadcast : Ipv6Addr) : Nat :=
  u128_not (prefix_mask_u128 (derived_cidr_v6 network broadcast))

namespace LibRev

/-- `lib.rs` (older revision) `IpAddrRangeError`: only two variants. -/
inductive IpAddrRangeError where
  | MixedIpVersions
  | ParseError
deriving DecidableEq

/-- `lib.rs` `IpAddrRangeV4`: field names `address`/`mask` in this revision. -/
structure IpAddrRangeV4 where
  address : Ipv4Addr
  mask : Nat
deriving DecidableEq

/-- `lib.rs` `IpAddrRangeV6`. -/
structure IpAddrRangeV6 where
  address : Ipv6Addr
  mask : Nat
deriving DecidableEq

/-- `lib.rs` `IpAddrRangeV4::from_range`: returns the `/32` single-host block
when `start == end` and otherwise hits `unimplemented!()`; the panic is
modelled as `none`. -/
def IpAddrRangeV4.from_range (start end_ : Ipv4Addr) :
    Option (RResult IpAddrRangeError IpAddrRangeV4) :=
  if start = end_ then some (.Ok ⟨start, 32⟩) else none

/-- `lib.rs` `IpAddrRangeV6::from_range`: `/128` when `start == end`,
otherwise `unimplemented!()` (modelled as `none`). -/
def IpAddrRangeV6.from_range (start end_ : Ipv6Addr) :
    Option (RResult IpAddrRangeError IpAddrRangeV6) :=
  if start = end_ then some (.Ok ⟨start, 128⟩) else none

end LibRev

/-! ## Theorems -/

set_option maxRecDepth 10000

theorem left_le_or (a b : Nat) : a ≤ a ||| b := by
  refine Nat.le_of_testBit fun i h => ?_
  rw [Nat.testBit_or, h, Bool.true_or]

theorem or_one_of_even (n : Nat) (h : n % 2 = 0) : n ||| 1 = n + 1 := by
  apply Nat.eq_of_testBit_eq
  intro i
  cases i with
  | zero =>
    rw [Nat.testBit_or, Nat.testBit_zero, Nat.testBit_zero, Nat.testBit_zero]
    have h1 : (n + 1) % 2 = 1 := by omega
    simp [h, h1]
  | succ j =>
    rw [Nat.testBit_or, Nat.testBit_succ, Nat.testBit_succ, Nat.testBit_succ]
    have h1 : (n + 1) / 2 = n / 2 := by omega
    have h2 : (1 : Nat) / 2 = 0 := by norm_num
    rw [h1, h2]
    simp [Nat.zero_testBit]

theorem xor_succ_of_even (n : Nat) (h : n % 2 = 0) : n ^^^ (n + 1) = 1 := by
  apply Nat.eq_of_testBit_eq
  intro i
  cases i with
  | zero =>
    rw [Nat.testBit_xor, Nat.testBit_zero, Nat.testBit_zero, Nat.testBit_zero]
    have h1 : (n + 1) % 2 = 1 := by omega
    simp [h, h1]
  | succ j =>
    rw [Nat.testBit_xor, Nat.testBit_succ, Nat.testBit_succ, Nat.testBit_succ]
    have h1 : (n + 1) / 2 = n / 2 := by omega
    have h2 : (1 : Nat) / 2 = 0 := by norm_num
    rw [h1, h2]
    simp [Nat.zero_testBit]

/-- The general (unequal-addresses) path of the IPv4 `from_range`, written
with the two boundary checks exposed. -/
theorem from_range_v4_general (s e : Ipv4Addr) (hse : s ≠ e) :
    IpAddrRangeV4.from_range s e =
      if ipv4_to_u32 s &&& derived_host_mask_v4 s e ≠ 0 then
        .Err .InvalidNetworkAddress
      else if ipv4_to_u32 e ≠ ipv4_to_u32 s ||| derived_host_mask_v4 s e then
        .Err .InvalidNetworkAddress
      else .Ok ⟨s, derived_cidr_v4 s e⟩ := by
  simp only [IpAddrRangeV4.from_range, if_neg hse, derived_host_mask_v4,
    derived_cidr_v4]

/-- The general (unequal-addresses) path of the IPv6 `from_range`. -/
theorem from_range_v6_general (s e : Ipv6Addr) (hse : s ≠ e) :
    IpAddrRangeV6.from_range s e =
      if ipv6_to_u128 s &&& derived_host_mask_v6 s e ≠ 0 then
        .Err .InvalidNetworkAddress
      else if ipv6_to_u128 e ≠ ipv6_to_u128 s ||| derived_host_mask_v6 s e then
        .Err .InvalidNetworkAddress
      else .Ok ⟨s, derived_cidr_v6 s e⟩ := by
  simp only [IpAddrRangeV6.from_range, if_neg hse, derived_host_mask_v6,
    derived_cidr_v6]

/-- Equal-address short-circuit of the IPv4 `from_range`. -/
theorem from_range_v4_refl (a : Ipv4Addr) :
    IpAddrRangeV4.from_range a a = .Ok ⟨a, 32⟩ := by
  rw [IpAddrRangeV4.from_range, if_pos rfl]

/-- Equal-address short-circuit of the IPv6 `from_range`. -/
theorem from_range_v6_refl (a : Ipv6Addr) :
    IpAddrRangeV6.from_range a a = .Ok ⟨a, 128⟩ := by
  rw [IpAddrRangeV6.from_range, if_pos rfl]

/-- C3: for every address of either family, `from_range(a, a)` succeeds and
yields a block whose network address is `a` and whose prefix length is the
family's full bit width (32 for IPv4, 128 for IPv6). -/
theorem from_range_same_address_full_width :
    (∀ a : Ipv4Addr, IpAddrRangeV4.from_range a a = .Ok ⟨a, 32⟩) ∧
    (∀ a : Ipv6Addr, IpAddrRangeV6.from_range a a = .Ok ⟨a, 128⟩) :=
  ⟨from_range_v4_refl, from_range_v6_refl⟩

/-- C7: the family-dispatching `from_range` fails with exactly
`MixedIpVersions` on mixed-family input (no derivation is attempted: the
result is the bare error), and on same-family input it is exactly the
family-specific result wrapped into the matching variant, errors propagated
unchanged. -/
theorem from_range_family_dispatch :
    (∀ (a : Ipv4Addr) (b : Ipv6Addr),
        IpAddrRange.from_range (.V4 a) (.V6 b) = .Err .MixedIpVersions ∧
        IpAddrRange.from_range (.V6 b) (.V4 a) = .Err .MixedIpVersions) ∧
    (∀ a b : Ipv4Addr,
        IpAddrRange.from_range (.V4 a) (.V4 b) =
          (IpAddrRangeV4.from_range a b).map IpAddrRange.V4) ∧
    (∀ a b : Ipv6Addr,
        IpAddrRange.from_range (.V6 a) (.V6 b) =
          (IpAddrRangeV6.from_range a b).map IpAddrRange.V6) :=
  ⟨fun _ _ => ⟨rfl, rfl⟩, fun _ _ => rfl, fun _ _ => rfl⟩

/-- C10: in the older revision (`src/lib.rs`), `from_range` of either family
returns a value exactly when `start == end` (the `/32` resp. `/128`
single-host block); on every pair of distinct addresses it reaches
`unimplemented!()` (modelled as `none`) instead of returning a `Result`. -/
theorem librev_from_range_only_equal :
    (∀ s e : Ipv4Addr,
        (s = e → LibRev.IpAddrRangeV4.from_range s e = some (.Ok ⟨s, 32⟩)) ∧
        (s ≠ e → LibRev.IpAddrRangeV4.from_range s e = none)) ∧
    (∀ s e : Ipv6Addr,
        (s = e → LibRev.IpAddrRangeV6.from_range s e = some (.Ok ⟨s, 128⟩)) ∧
        (s ≠ e → LibRev.IpAddrRangeV6.from_range s e = none)) := by
  refine ⟨fun s e => ⟨fun h => ?_, fun h => ?_⟩,
    fun s e => ⟨fun h => ?_, fun h => ?_⟩⟩ <;>
    simp [LibRev.IpAddrRangeV4.from_range, LibRev.IpAddrRangeV6.from_range, h]

/-- Witness for C10 at concrete addresses. -/
theorem librev_from_range_only_equal_witness :
    LibRev.IpAddrRangeV4.from_range ⟨127, 0, 0, 1⟩ ⟨127, 0, 0, 1⟩ =
        some (.Ok ⟨⟨127, 0, 0, 1⟩, 32⟩) ∧
    LibRev.IpAddrRangeV4.from_range ⟨127, 0, 0, 1⟩ ⟨127, 0, 0, 2⟩ = none :=
  ⟨(librev_from_range_only_equal.1 _ _).1 rfl,
    (librev_from_range_only_equal.1 _ _).2 (by decide)⟩

/-- C9: for both widths the prefix and postfix masks partition the word:
their union is all-ones, their intersection empty, and the extreme prefix
masks are `0` and all-ones. -/
theorem mask_partition :
    (∀ n, n ≤ 32 →
        prefix_mask_u32 n ||| postfix_mask_u32 (32 - n) = 2 ^ 32 - 1 ∧
        prefix_mask_u32 n &&& postfix_mask_u32 (32 - n) = 0) ∧
    (∀ n, n ≤ 128 →
        prefix_mask_u128 n ||| postfix_mask_u128 (128 - n) = 2 ^ 128 - 1 ∧
        prefix_mask_u128 n &&& postfix_mask_u128 (128 - n) = 0) ∧
    prefix_mask_u32 0 = 0 ∧ prefix_mask_u32 32 = 2 ^ 32 - 1 ∧
    prefix_mask_u128 0 = 0 ∧ prefix_mask_u128 128 = 2 ^ 128 - 1 := by
  decide

/-- Witness for C9 at `n = 24` (width 32) and `n = 64` (width 128). -/
theorem mask_partition_witness :
    (prefix_mask_u32 24 ||| postfix_mask_u32 (32 - 24) = 2 ^ 32 - 1 ∧
      prefix_mask_u32 24 &&& postfix_mask_u32 (32 - 24) = 0) ∧
    (prefix_mask_u128 64 ||| postfix_mask_u128 (128 - 64) = 2 ^ 128 - 1 ∧
      prefix_mask_u128 64 &&& postfix_mask_u128 (128 - 64) = 0) :=
  ⟨mask_partition.1 24 (by omega), mask_partition.2.1 64 (by omega)⟩

/-- C2: every block a successful `from_range` produces has all host bits of
its network address zero (`to_integer(network) & !prefix_mask(cidr) == 0`),
for both families; `new` stores both arguments verbatim with no
normalization, and `from_str` likewise stores the parsed address verbatim —
witnessed by `127.0.0.1/24` and `::1/127`, whose addresses have nonzero host
bits. -/
theorem from_range_network_invariant :
    (∀ s e r, IpAddrRangeV4.from_range s e = .Ok r →
        ipv4_to_u32 r.network_address &&& u32_not (prefix_mask_u32 r.cidr) = 0) ∧
    (∀ s e r, IpAddrRangeV6.from_range s e = .Ok r →
        ipv6_to_u128 r.network_address &&& u128_not (prefix_mask_u128 r.cidr) = 0) ∧
    (∀ (a : Ipv4Addr) (c : Nat) (h : c ≤ 32), IpAddrRangeV4.new a c h = ⟨a, c⟩) ∧
    (∀ (a : Ipv6Addr) (c : Nat) (h : c ≤ 128), IpAddrRangeV6.new a c h = ⟨a, c⟩) ∧
    ipv4_to_u32 ⟨127, 0, 0, 1⟩ &&& u32_not (prefix_mask_u32 24) ≠ 0 ∧
    IpAddrRangeV4.from_str (String.data "127.0.0.1/24") =
      .Ok ⟨⟨127, 0, 0, 1⟩, 24⟩ ∧
    IpAddrRangeV6.from_str (String.data "0:0:0:0:0:0:0:1/127") =
      .Ok ⟨⟨0, 0, 0, 0, 0, 0, 0, 1⟩, 127⟩ := by
  refine ⟨?_, ?_, fun a c h => rfl, fun a c h => rfl, by decide, by decide,
    by decide⟩
  · intro s e r h
    by_cases hse : s = e
    · subst hse
      rw [from_range_v4_refl s] at h
      cases h
      show ipv4_to_u32 s &&& u32_not (prefix_mask_u32 32) = 0
      have h32 : u32_not (prefix_mask_u32 32) = 0 := by decide
      rw [h32, Nat.and_zero]
    · rw [from_range_v4_general s e hse] at h
      by_cases h1 : ipv4_to_u32 s &&& derived_host_mask_v4 s e = 0
      · rw [if_neg (fun hx => hx h1)] at h
        by_cases h2 : ipv4_to_u32 e = ipv4_to_u32 s ||| derived_host_mask_v4 s e
        · rw [if_neg (fun hx => hx h2)] at h
          cases h
          exact h1
        · rw [if_pos h2] at h
          cases h
      · rw [if_pos h1] at h
        cases h
  · intro s e r h
    by_cases hse : s = e
    · subst hse
      rw [from_range_v6_refl s] at h
      cases h
      show ipv6_to_u128 s &&& u128_not (prefix_mask_u128 128) = 0
      have h128 : u128_not (prefix_mask_u128 128) = 0 := by decide
      rw [h128, Nat.and_zero]
    · rw [from_range_v6_general s e hse] at h
      by_cases h1 : ipv6_to_u128 s &&& derived_host_mask_v6 s e = 0
      · rw [if_neg (fun hx => hx h1)] at h
        by_cases h2 : ipv6_to_u128 e = ipv6_to_u128 s ||| derived_host_mask_v6 s e
        · rw [if_neg (fun hx => hx h2)] at h
          cases h
          exact h1
        · rw [if_pos h2] at h
          cases h
      · rw [if_pos h1] at h
        cases h

/-- Witness for C2: the invariant instantiated on the block derived from
`(10.0.0.0, 10.0.0.255)`, and `new` on a concrete address/prefix pair. -/
theorem from_range_network_invariant_witness :
    ipv4_to_u32
        ({ network_address := ⟨10, 0, 0, 0⟩, cidr := 24 } :
          IpAddrRangeV4).network_address &&&
      u32_not (prefix_mask_u32
        ({ network_address := ⟨10, 0, 0, 0⟩, cidr := 24 } :
          IpAddrRangeV4).cidr) = 0 ∧
    IpAddrRangeV4.new ⟨127, 0, 0, 1⟩ 24 (by omega) = ⟨⟨127, 0, 0, 1⟩, 24⟩ :=
  ⟨from_range_network_invariant.1 ⟨10, 0, 0, 0⟩ ⟨10, 0, 0, 255⟩ _ (by decide),
    from_range_network_invariant.2.2.1 ⟨127, 0, 0, 1⟩ 24 (by omega)⟩

/-- C1: on distinct same-family addresses, `from_range` returns `Ok` with the
supplied network address and the derived prefix length `p` exactly when the
network's host bits (under `!prefix_mask(p)`) are zero and the broadcast is
the network with all host bits set; in every other case it returns the
boundary-validation error (`InvalidNetworkAddress` in the code, the spec's
`InvalidNetworkBoundary`).  In particular an even `n` paired with `n + 1`
validates as a `/31` (IPv4) resp. `/127` (IPv6). -/
theorem from_range_boundary_check :
    (∀ network broadcast : Ipv4Addr, network ≠ broadcast →
        (IpAddrRangeV4.from_range network broadcast =
            .Ok ⟨network, derived_cidr_v4 network broadcast⟩ ↔
          ipv4_to_u32 network &&& derived_host_mask_v4 network broadcast = 0 ∧
            ipv4_to_u32 broadcast =
              ipv4_to_u32 network ||| derived_host_mask_v4 network broadcast) ∧
        (¬(ipv4_to_u32 network &&& derived_host_mask_v4 network broadcast = 0 ∧
              ipv4_to_u32 broadcast =
                ipv4_to_u32 network ||| derived_host_mask_v4 network broadcast) →
          IpAddrRangeV4.from_range network broadcast =
            .Err .InvalidNetworkAddress)) ∧
    (∀ network broadcast : Ipv6Addr, network ≠ broadcast →
        (IpAddrRangeV6.from_range network broadcast =
            .Ok ⟨network, derived_cidr_v6 network broadcast⟩ ↔
          ipv6_to_u128 network &&& derived_host_mask_v6 network broadcast = 0 ∧
            ipv6_to_u128 broadcast =
              ipv6_to_u128 network ||| derived_host_mask_v6 network broadcast) ∧
        (¬(ipv6_to_u128 network &&& derived_host_mask_v6 network broadcast = 0 ∧
              ipv6_to_u128 broadcast =
                ipv6_to_u128 network ||| derived_host_mask_v6 network broadcast) →
          IpAddrRangeV6.from_range network broadcast =
            .Err .InvalidNetworkAddress)) ∧
    (∀ network broadcast : Ipv4Addr,
        ipv4_to_u32 network % 2 = 0 →
        ipv4_to_u32 broadcast = ipv4_to_u32 network + 1 →
        IpAddrRangeV4.from_range network broadcast = .Ok ⟨network, 31⟩) ∧
    (∀ network broadcast : Ipv6Addr,
        ipv6_to_u128 network % 2 = 0 →
        ipv6_to_u128 broadcast = ipv6_to_u128 network + 1 →
        IpAddrRangeV6.from_range network broadcast = .Ok ⟨network, 127⟩) := by
  refine ⟨fun net bc hne => ?_, fun net bc hne => ?_,
    fun net bc he hb => ?_, fun net bc he hb => ?_⟩
  · rw [from_range_v4_general net bc hne]
    by_cases h1 : ipv4_to_u32 net &&& derived_host_mask_v4 net bc = 0 <;>
      by_cases h2 : ipv4_to_u32 bc =
        ipv4_to_u32 net ||| derived_host_mask_v4 net bc <;>
      simp [h1, h2]
  · rw [from_range_v6_general net bc hne]
    by_cases h1 : ipv6_to_u128 net &&& derived_host_mask_v6 net bc = 0 <;>
      by_cases h2 : ipv6_to_u128 bc =
        ipv6_to_u128 net ||| derived_host_mask_v6 net bc <;>
      simp [h1, h2]
  · have hne : net ≠ bc := by
      intro h
      rw [h] at hb
      omega
    have hx : ipv4_to_u32 net ^^^ ipv4_to_u32 bc = 1 := by
      rw [hb]
      exact xor_succ_of_even _ he
    have hc : derived_cidr_v4 net bc = 31 := by
      rw [derived_cidr_v4, number_of_common_prefix_bits_u32, hx]
      decide
    have hm : derived_host_mask_v4 net bc = 1 := by
      rw [derived_host_mask_v4, hc]
      decide
    rw [from_range_v4_general net bc hne, hm, hc]
    rw [if_neg (by rw [Nat.and_one_is_mod, he]; exact fun hx0 => hx0 rfl)]
    rw [or_one_of_even _ he, if_neg (fun hx0 => hx0 hb)]
  · have hne : net ≠ bc := by
      intro h
      rw [h] at hb
      omega
    have hx : ipv6_to_u128 net ^^^ ipv6_to_u128 bc = 1 := by
      rw [hb]
      exact xor_succ_of_even _ he
    have hc : derived_cidr_v6 net bc = 127 := by
      rw [derived_cidr_v6, number_of_common_prefix_bits_u128, hx]
      decide
    have hm : derived_host_mask_v6 net bc = 1 := by
      rw [derived_host_mask_v6, hc]
      decide
    rw [from_range_v6_general net bc hne, hm, hc]
    rw [if_neg (by rw [Nat.and_one_is_mod, he]; exact fun hx0 => hx0 rfl)]
    rw [or_one_of_even _ he, if_neg (fun hx0 => hx0 hb)]

/-- Witness for C1: the aligned pair `(10.0.0.0, 10.0.0.255)` validates with
the derived prefix, and `(192.168.0.0, 192.168.0.1)` is an adjacent pair
accepted as a `/31`. -/
theorem from_range_boundary_check_witness :
    IpAddrRangeV4.from_range ⟨10, 0, 0, 0⟩ ⟨10, 0, 0, 255⟩ =
        .Ok ⟨⟨10, 0, 0, 0⟩, derived_cidr_v4 ⟨10, 0, 0, 0⟩ ⟨10, 0, 0, 255⟩⟩ ∧
    IpAddrRangeV4.from_range ⟨192, 168, 0, 0⟩ ⟨192, 168, 0, 1⟩ =
        .Ok ⟨⟨192, 168, 0, 0⟩, 31⟩ :=
  ⟨((from_range_boundary_check.1 ⟨10, 0, 0, 0⟩ ⟨10, 0, 0, 255⟩
        (by decide)).1).mpr (by decide),
    from_range_boundary_check.2.2.1 ⟨192, 168, 0, 0⟩ ⟨192, 168, 0, 1⟩
      (by decide) (by decide)⟩

/-- C4: whenever the supplied start strictly exceeds the supplied end in
integer encoding (swapped endpoints), `from_range` of either family fails
with the boundary-validation error. -/
theorem from_range_swapped_endpoints :
    (∀ s e : Ipv4Addr, ipv4_to_u32 e < ipv4_to_u32 s →
        IpAddrRangeV4.from_range s e = .Err .InvalidNetworkAddress) ∧
    (∀ s e : Ipv6Addr, ipv6_to_u128 e < ipv6_to_u128 s →
        IpAddrRangeV6.from_range s e = .Err .InvalidNetworkAddress) := by
  constructor
  · intro s e hlt
    have hne : s ≠ e := by
      intro h
      rw [h] at hlt
      omega
    rw [from_range_v4_general s e hne]
    by_cases h1 : ipv4_to_u32 s &&& derived_host_mask_v4 s e = 0
    · rw [if_neg (fun hx => hx h1)]
      by_cases h2 : ipv4_to_u32 e = ipv4_to_u32 s ||| derived_host_mask_v4 s e
      · exfalso
        have hle := left_le_or (ipv4_to_u32 s) (derived_host_mask_v4 s e)
        omega
      · rw [if_pos h2]
    · rw [if_pos h1]
  · intro s e hlt
    have hne : s ≠ e := by
      intro h
      rw [h] at hlt
      omega
    rw [from_range_v6_general s e hne]
    by_cases h1 : ipv6_to_u128 s &&& derived_host_mask_v6 s e = 0
    · rw [if_neg (fun hx => hx h1)]
      by_cases h2 : ipv6_to_u128 e = ipv6_to_u128 s ||| derived_host_mask_v6 s e
      · exfalso
        have hle := left_le_or (ipv6_to_u128 s) (derived_host_mask_v6 s e)
        omega
      · rw [if_pos h2]
    · rw [if_pos h1]

/-- Witness for C4: the spec's own example `from_range(127.0.0.2, 127.0.0.1)`
and an IPv6 analogue. -/
theorem from_range_swapped_endpoints_witness :
    IpAddrRangeV4.from_range ⟨127, 0, 0, 2⟩ ⟨127, 0, 0, 1⟩ =
        .Err .InvalidNetworkAddress ∧
    IpAddrRangeV6.from_range ⟨0, 0, 0, 0, 0, 0, 0, 2⟩ ⟨0, 0, 0, 0, 0, 0, 0, 1⟩ =
        .Err .InvalidNetworkAddress :=
  ⟨from_range_swapped_endpoints.1 ⟨127, 0, 0, 2⟩ ⟨127, 0, 0, 1⟩ (by decide),
    from_range_swapped_endpoints.2 ⟨0, 0, 0, 0, 0, 0, 0, 2⟩
      ⟨0, 0, 0, 0, 0, 0, 0, 1⟩ (by decide)⟩

theorem splitAtFirstSlash_of_not_mem {s : List Char} (h : '/' ∉ s) :
    splitAtFirstSlash s = none := by
  induction s with
  | nil => rfl
  | cons c rest ih =>
    have hc : c ≠ '/' := fun hx => h (by rw [hx]; exact List.mem_cons_self _ _)
    have hr : '/' ∉ rest := fun hx => h (List.mem_cons_of_mem _ hx)
    rw [splitAtFirstSlash, if_neg (fun hx => hc hx), ih hr]

theorem splitAtFirstSlash_none {s : List Char} (h : splitAtFirstSlash s = none) :
    '/' ∉ s := by
  induction s with
  | nil => simp
  | cons c rest ih =>
    rw [splitAtFirstSlash] at h
    by_cases hc : c = '/'
    · rw [if_pos hc] at h
      cases h
    · rw [if_neg hc] at h
      cases hr : splitAtFirstSlash rest with
      | some am => rw [hr] at h; cases h
      | none =>
        intro hmem
        rcases List.mem_cons.mp hmem with h1 | h1
        · exact hc h1.symm
        · exact ih hr h1

theorem splitAtFirstSlash_some :
    ∀ {s a m : List Char}, splitAtFirstSlash s = some (a, m) →
      s = a ++ '/' :: m ∧ '/' ∉ a := by
  intro s
  induction s with
  | nil => intro a m h; cases h
  | cons c rest ih =>
    intro a m h
    rw [splitAtFirstSlash] at h
    by_cases hc : c = '/'
    · rw [if_pos hc] at h
      cases h
      subst hc
      simp
    · rw [if_neg hc] at h
      cases hr : splitAtFirstSlash rest with
      | none => rw [hr] at h; cases h
      | some am =>
        obtain ⟨a', m'⟩ := am
        rw [hr] at h
        cases h
        obtain ⟨h1, h2⟩ := ih hr
        constructor
        · rw [List.cons_append, ← h1]
        · intro hmem
          rcases List.mem_cons.mp hmem with h3 | h3
          · exact hc h3.symm
          · exact h2 h3

theorem splitAtFirstSlash_append {a m : List Char} (h : '/' ∉ a) :
    splitAtFirstSlash (a ++ '/' :: m) = some (a, m) := by
  induction a with
  | nil => rfl
  | cons c a' ih =>
    have hc : c ≠ '/' := fun hx => h (by rw [hx]; exact List.mem_cons_self _ _)
    have ha : '/' ∉ a' := fun hx => h (List.mem_cons_of_mem _ hx)
    rw [List.cons_append, splitAtFirstSlash, if_neg (fun hx => hc hx), ih ha]

theorem splitAtLastSlash_of_not_mem {s : List Char} (h : '/' ∉ s) :
    splitAtLastSlash s = none := by
  induction s with
  | nil => rfl
  | cons c rest ih =>
    have hc : c ≠ '/' := fun hx => h (by rw [hx]; exact List.mem_cons_self _ _)
    have hr : '/' ∉ rest := fun hx => h (List.mem_cons_of_mem _ hx)
    rw [splitAtLastSlash, ih hr, if_neg (fun hx => hc hx)]

theorem splitAtLastSlash_none {s : List Char} (h : splitAtLastSlash s = none) :
    '/' ∉ s := by
  induction s with
  | nil => simp
  | cons c rest ih =>
    rw [splitAtLastSlash] at h
    cases hr : splitAtLastSlash rest with
    | some am => rw [hr] at h; cases h
    | none =>
      rw [hr] at h
      by_cases hc : c = '/'
      · rw [if_pos hc] at h
        cases h
      · intro hmem
        rcases List.mem_cons.mp hmem with h1 | h1
        · exact hc h1.symm
        · exact ih hr h1

theorem splitAtLastSlash_some :
    ∀ {s a m : List Char}, splitAtLastSlash s = some (a, m) →
      s = a ++ '/' :: m ∧ '/' ∉ m := by
  intro s
  induction s with
  | nil => intro a m h; cases h
  | cons c rest ih =>
    intro a m h
    rw [splitAtLastSlash] at h
    cases hr : splitAtLastSlash rest with
    | some am =>
      obtain ⟨a', m'⟩ := am
      rw [hr] at h
      cases h
      obtain ⟨h1, h2⟩ := ih hr
      exact ⟨by rw [List.cons_append, ← h1], h2⟩
    | none =>
      rw [hr] at h
      by_cases hc : c = '/'
      · rw [if_pos hc] at h
        cases h
        subst hc
        exact ⟨rfl, splitAtLastSlash_none hr⟩
      · rw [if_neg hc] at h
        cases h

theorem splitAtLastSlash_append {a m : List Char} (h : '/' ∉ m) :
    splitAtLastSlash (a ++ '/' :: m) = some (a, m) := by
  induction a with
  | nil =>
    rw [List.nil_append, splitAtLastSlash, splitAtLastSlash_of_not_mem h,
      if_pos rfl]
  | cons c a' ih =>
    rw [List.cons_append, splitAtLastSlash, ih]

theorem splitAtLastSlash_isSome {s : List Char} (h : '/' ∈ s) :
    ∃ a m, splitAtLastSlash s = some (a, m) := by
  cases hl : splitAtLastSlash s with
  | none => exact absurd h (splitAtLastSlash_none hl)
  | some am => exact ⟨am.1, am.2, rfl⟩

theorem splitSep_ne_nil (sep : Char) (s : List Char) : splitSep sep s ≠ [] := by
  cases s with
  | nil => simp [splitSep]
  | cons c rest =>
    rw [splitSep]
    by_cases hc : c = sep
    · simp [hc]
    · rw [if_neg hc]
      cases splitSep sep rest <;> simp

theorem splitSep_of_not_mem {sep : Char} {x : List Char} (h : sep ∉ x) :
    splitSep sep x = [x] := by
  induction x with
  | nil => rfl
  | cons c x' ih =>
    have hc : c ≠ sep := fun hx => h (by rw [hx]; exact List.mem_cons_self _ _)
    have hx' : sep ∉ x' := fun hx => h (List.mem_cons_of_mem _ hx)
    rw [splitSep, if_neg hc, ih hx']

theorem splitSep_append {sep : Char} {x y : List Char} (h : sep ∉ x) :
    splitSep sep (x ++ sep :: y) = x :: splitSep sep y := by
  induction x with
  | nil => rw [List.nil_append, splitSep, if_pos rfl]
  | cons c x' ih =>
    have hc : c ≠ sep := fun hx => h (by rw [hx]; exact List.mem_cons_self _ _)
    have hx' : sep ∉ x' := fun hx => h (List.mem_cons_of_mem _ hx)
    rw [List.cons_append, splitSep, if_neg hc, ih hx']

theorem mem_splitSep {sep c0 : Char} {s : List Char} (h : c0 ∈ s)
    (hne : c0 ≠ sep) : ∃ p ∈ splitSep sep s, c0 ∈ p := by
  induction s with
  | nil => cases h
  | cons c rest ih =>
    rw [splitSep]
    by_cases hc : c = sep
    · rcases List.mem_cons.mp h with h1 | h1
      · exact absurd (h1.trans hc) hne
      · obtain ⟨p, hp, hcp⟩ := ih h1
        exact ⟨p, by rw [if_pos hc]; exact List.mem_cons_of_mem _ hp, hcp⟩
    · rw [if_neg hc]
      cases hr : splitSep sep rest with
      | nil => exact absurd hr (splitSep_ne_nil sep rest)
      | cons hd tl =>
        rcases List.mem_cons.mp h with h1 | h1
        · exact ⟨c :: hd, List.mem_cons_self _ _, by rw [h1]; exact List.mem_cons_self _ _⟩
        · obtain ⟨p, hp, hcp⟩ := ih h1
          rw [hr] at hp
          rcases List.mem_cons.mp hp with h2 | h2
          · exact ⟨c :: hd, List.mem_cons_self _ _,
              List.mem_cons_of_mem _ (by rw [← h2]; exact hcp)⟩
          · exact ⟨p, List.mem_cons_of_mem _ h2, hcp⟩

theorem parseNatBase_none_of_invalid {b : Nat} {valid : Char → Bool}
    {s : List Char} {c : Char} (hc : c ∈ s) (hv : valid c = false) :
    parseNatBase b valid s = none := by
  rw [parseNatBase, if_neg]
  intro ⟨_, hall⟩
  have := List.all_eq_true.mp hall c hc
  rw [hv] at this
  cases this

theorem parseNatBase_some_ne_nil {b : Nat} {valid : Char → Bool}
    {s : List Char} {v : Nat} (h : parseNatBase b valid s = some v) :
    s ≠ [] := by
  rw [parseNatBase] at h
  by_cases hcond : s ≠ [] ∧ s.all valid
  · exact hcond.1
  · rw [if_neg hcond] at h
    cases h

theorem parseU8_none_of_slash {m : List Char} (h : '/' ∈ m) :
    parseU8 m = none := by
  rw [parseU8, parseDecNat, parseNatBase_none_of_invalid h (by decide)]

theorem parseU8_some_ne_nil {m : List Char} {v : Nat}
    (h : parseU8 m = some v) : m ≠ [] := by
  rw [parseU8] at h
  cases hd : parseDecNat m with
  | none => rw [hd] at h; cases h
  | some w => exact parseNatBase_some_ne_nil hd

theorem parseU8_none_of_overflow {m : List Char} {v : Nat}
    (h : parseDecNat m = some v) (hv : 255 < v) : parseU8 m = none := by
  have hnle : ¬(v ≤ 255) := by omega
  simp [parseU8, h, hnle]

theorem parseIpv4_none_of_slash {s : List Char} (h : '/' ∈ s) :
    parseIpv4 s = none := by
  obtain ⟨p, hp, hcp⟩ := @mem_splitSep '.' '/' s h (by decide)
  have hpb : parseByte p = none := by
    rw [parseByte, parseDecNat, parseNatBase_none_of_invalid hcp (by decide)]
  rw [parseIpv4]
  rcases h4 : splitSep '.' s with _ | ⟨p1, _ | ⟨p2, _ | ⟨p3, _ | ⟨p4, _ | ⟨p5, t⟩⟩⟩⟩⟩
  · rfl
  · rfl
  · rfl
  · rfl
  · rw [h4] at hp
    rcases List.mem_cons.mp hp with rfl | hp1
    · simp [hpb]
    rcases List.mem_cons.mp hp1 with rfl | hp2
    · cases parseByte p1 <;> simp [hpb]
    rcases List.mem_cons.mp hp2 with rfl | hp3
    · cases parseByte p1 <;> cases parseByte p2 <;> simp [hpb]
    rcases List.mem_cons.mp hp3 with rfl | hp4
    · cases parseByte p1 <;> cases parseByte p2 <;> cases parseByte p3 <;>
        simp [hpb]
    · cases hp4
  · rfl

theorem parseIpv4_nil : parseIpv4 [] = none := by decide

theorem parseU8_nil : parseU8 [] = none := by decide

/-- C5: for both families the parser behaves exactly as the spec's
`CidrCodec.parse` describes — split at the LAST `/`, fail with the
malformed-string kind of error when the `/` is absent or either side of the
split is empty, then hand the sides to the component parsers.  For IPv6 this
is the literal code; for IPv4 the code locates the FIRST `/` and has no
explicit emptiness check, but (as the first conjunct proves) its observable
behavior coincides with the spec's description on every input, because no
IPv4 address literal and no prefix integer may contain a `/`, and empty
sides already fail inside those component parsers with the same error
value.  The remaining conjuncts pin the concrete failure cases the spec
lists. -/
theorem parse_splits_at_last_slash :
    (∀ s, IpAddrRangeV4.from_str s = cidrParseSpecV4 s) ∧
    (∀ s, IpAddrRangeV6.from_str s = cidrParseSpecV6 s) ∧
    IpAddrRangeV4.from_str (String.data "") = .Err .ParseError ∧
    IpAddrRangeV4.from_str (String.data "127.0.0.1") = .Err .ParseError ∧
    IpAddrRangeV4.from_str (String.data "/24") = .Err .ParseError ∧
    IpAddrRangeV4.from_str (String.data "127.0.0.1/") = .Err .ParseError ∧
    IpAddrRangeV6.from_str (String.data "") = .Err .IpAddrRangeParseError ∧
    IpAddrRangeV6.from_str (String.data "0:0:0:0:0:0:0:1") =
      .Err .IpAddrRangeParseError ∧
    IpAddrRangeV6.from_str (String.data "/24") = .Err .IpAddrRangeParseError ∧
    IpAddrRangeV6.from_str (String.data "0:0:0:0:0:0:0:1/") =
      .Err .IpAddrRangeParseError := by
  refine ⟨?_, fun s => rfl, by decide, by decide, by decide, by decide,
    by decide, by decide, by decide, by decide⟩
  intro s
  cases hf : splitAtFirstSlash s with
  | none =>
    have hns : '/' ∉ s := splitAtFirstSlash_none hf
    rw [IpAddrRangeV4.from_str, cidrParseSpecV4, hf,
      splitAtLastSlash_of_not_mem hns]
  | some am =>
    obtain ⟨a, m⟩ := am
    obtain ⟨hs, hna⟩ := splitAtFirstSlash_some hf
    by_cases hm : '/' ∈ m
    · -- at least two slashes: both sides answer `ParseError`
      have hmem : '/' ∈ s := by
        rw [hs]
        exact List.mem_append_right _ (List.mem_cons_self _ _)
      obtain ⟨a2, m2, hl⟩ := splitAtLastSlash_isSome hmem
      obtain ⟨hs2, hm2⟩ := splitAtLastSlash_some hl
      have ha2 : '/' ∈ a2 := by
        by_contra hna2
        have hfirst : splitAtFirstSlash s = some (a2, m2) := by
          rw [hs2]
          exact splitAtFirstSlash_append hna2
        rw [hf] at hfirst
        cases hfirst
        exact hm2 hm
      have hlhs : IpAddrRangeV4.from_str s = .Err .ParseError := by
        rw [IpAddrRangeV4.from_str, hf]
        cases hpa : parseIpv4 a with
        | none => simp [hpa]
        | some addr => simp [hpa, parseU8_none_of_slash hm]
      have hrhs : cidrParseSpecV4 s = .Err .ParseError := by
        rw [cidrParseSpecV4, hl]
        have hne2 : a2.length ≠ 0 := by
          cases a2 with
          | nil => cases ha2
          | cons x t => simp
        by_cases hm2e : m2.length = 0
        · simp [hm2e]
        · simp [hne2, hm2e, parseIpv4_none_of_slash ha2]
      rw [hlhs, hrhs]
    · -- a single slash: the first slash is also the last
      have hl : splitAtLastSlash s = some (a, m) := by
        rw [hs]
        exact splitAtLastSlash_append hm
      rw [IpAddrRangeV4.from_str, cidrParseSpecV4, hf, hl]
      by_cases hae : a = []
      · subst hae
        simp [parseIpv4_nil]
      · by_cases hme : m = []
        · subst hme
          cases hpa : parseIpv4 a with
          | none => simp [hpa]
          | some addr => simp [hpa, parseU8_nil]
        · have h1 : a.length ≠ 0 := by simpa using hae
          have h2 : m.length ≠ 0 := by simpa using hme
          simp [h1, h2]

/-- Counterexample to C6: `0.0.0.0/33` has a prefix-length component that
parses as an unsigned integer exceeding 32, yet the IPv4 parser answers the
generic parse error, not a value-carrying invalid-prefix error; likewise
`.../300` on IPv6 (the component overflows `u8` first) answers the generic
parse error, not `InvalidCidr 300`. -/
theorem invalid_prefix_counterexample :
    IpAddrRangeV4.from_str (String.data "0.0.0.0/33") = .Err .ParseError ∧
    IpAddrRangeV4.from_str (String.data "0.0.0.0/33") ≠
      .Err (.InvalidCidr 33) ∧
    IpAddrRangeV6.from_str (String.data "0:0:0:0:0:0:0:0/300") =
      .Err .ParseError ∧
    IpAddrRangeV6.from_str (String.data "0:0:0:0:0:0:0:0/300") ≠
      .Err (.InvalidCidr 300) := by
  exact ⟨by decide, by decide, by decide, by decide⟩

/-- C6 as amended: only the IPv6 parser reports the value-carrying
`InvalidCidr got` error, and only when the prefix component parses within
`u8` (`128 < got ≤ 255`) and the address side is well formed; the IPv4
parser maps an out-of-range prefix (`32 < got ≤ 255`) to its generic
`ParseError`, and in both families a component beyond `u8` range
(`got > 255`) already fails integer parsing with the generic error. -/
theorem invalid_prefix_amended :
    (∀ s address_str mask_str cidr,
        splitAtLastSlash s = some (address_str, mask_str) →
        address_str.length ≠ 0 →
        (parseIpv6 address_str).isSome →
        parseU8 mask_str = some cidr →
        128 < cidr →
        IpAddrRangeV6.from_str s = .Err (.InvalidCidr cidr)) ∧
    (∀ s address_str mask_str cidr,
        splitAtFirstSlash s = some (address_str, mask_str) →
        (parseIpv4 address_str).isSome →
        parseU8 mask_str = some cidr →
        32 < cidr →
        IpAddrRangeV4.from_str s = .Err .ParseError) ∧
    (∀ s address_str mask_str v,
        splitAtFirstSlash s = some (address_str, mask_str) →
        (parseIpv4 address_str).isSome →
        parseDecNat mask_str = some v →
        255 < v →
        IpAddrRangeV4.from_str s = .Err .ParseError) ∧
    (∀ s address_str mask_str v,
        splitAtLastSlash s = some (address_str, mask_str) →
        address_str.length ≠ 0 →
        (parseIpv6 address_str).isSome →
        parseDecNat mask_str = some v →
        255 < v →
        IpAddrRangeV6.from_str s = .Err .ParseError) := by
  refine ⟨?_, ?_, ?_, ?_⟩
  · intro s address_str mask_str cidr hsplit hlen haddr hmask hcidr
    obtain ⟨addr, haddr⟩ := Option.isSome_iff_exists.mp haddr
    have hmlen : mask_str.length ≠ 0 := by
      have := parseU8_some_ne_nil hmask
      simpa using this
    have hnlt : ¬(cidr ≤ 128) := by omega
    rw [IpAddrRangeV6.from_str, hsplit]
    simp [hlen, hmlen, haddr, hmask, hnlt]
  · intro s address_str mask_str cidr hsplit haddr hmask hcidr
    obtain ⟨addr, haddr⟩ := Option.isSome_iff_exists.mp haddr
    have hnlt : ¬(cidr ≤ 32) := by omega
    rw [IpAddrRangeV4.from_str, hsplit]
    simp [haddr, hmask, hnlt]
  · intro s address_str mask_str v hsplit haddr hmask hv
    obtain ⟨addr, haddr⟩ := Option.isSome_iff_exists.mp haddr
    rw [IpAddrRangeV4.from_str, hsplit]
    simp [haddr, parseU8_none_of_overflow hmask hv]
  · intro s address_str mask_str v hsplit hlen haddr hmask hv
    obtain ⟨addr, haddr⟩ := Option.isSome_iff_exists.mp haddr
    have hmlen : mask_str.length ≠ 0 := by
      have := parseNatBase_some_ne_nil hmask
      simpa using this
    rw [IpAddrRangeV6.from_str, hsplit]
    simp [hlen, hmlen, haddr, parseU8_none_of_overflow hmask hv]

/-- Witness for the amended C6, at `.../129` (IPv6 `InvalidCidr`), `/33`
(IPv4 generic error) and `/300` (u8 overflow, both families). -/
theorem invalid_prefix_amended_witness :
    IpAddrRangeV6.from_str (String.data "0:0:0:0:0:0:0:1/129") =
      .Err (.InvalidCidr 129) ∧
    IpAddrRangeV4.from_str (String.data "127.0.0.1/33") = .Err .ParseError ∧
    IpAddrRangeV4.from_str (String.data "127.0.0.1/300") = .Err .ParseError ∧
    IpAddrRangeV6.from_str (String.data "0:0:0:0:0:0:0:1/300") =
      .Err .ParseError :=
  ⟨invalid_prefix_amended.1 _ (String.data "0:0:0:0:0:0:0:1")
      (String.data "129") 129 (by decide) (by decide) (by decide) (by decide)
      (by omega),
    invalid_prefix_amended.2.1 _ (String.data "127.0.0.1") (String.data "33")
      33 (by decide) (by decide) (by decide) (by omega),
    invalid_prefix_amended.2.2.1 _ (String.data "127.0.0.1")
      (String.data "300") 300 (by decide) (by decide) (by decide) (by omega),
    invalid_prefix_amended.2.2.2 _ (String.data "0:0:0:0:0:0:0:1")
      (String.data "300") 300 (by decide) (by decide) (by decide) (by decide)
      (by omega)⟩
theorem charsOfNatAux_mem {b : Nat} (hb : 2 ≤ b) :
    ∀ fuel n c, c ∈ charsOfNatAux b fuel n →
      ∃ d, d < b ∧ c = Nat.digitChar d := by
  intro fuel
  induction fuel with
  | zero => intro n c hc; cases hc
  | succ f ih =>
    intro n c hc
    cases n with
    | zero => cases hc
    | succ k =>
      rw [charsOfNatAux] at hc
      rcases List.mem_append.mp hc with h1 | h1
      · exact ih _ c h1
      · rcases List.mem_cons.mp h1 with h2 | h2
        · exact ⟨(k + 1) % b, Nat.mod_lt _ (by omega), h2⟩
        · cases h2

theorem charsOfNat_mem {b n : Nat} {c : Char} (hb : 2 ≤ b)
    (hc : c ∈ charsOfNat b n) : ∃ d, d < b ∧ c = Nat.digitChar d := by
  rw [charsOfNat] at hc
  by_cases hn : n = 0
  · rw [if_pos hn] at hc
    rcases List.mem_cons.mp hc with h1 | h1
    · exact ⟨0, by omega, h1⟩
    · cases h1
  · rw [if_neg hn] at hc
    exact charsOfNatAux_mem hb _ _ _ hc

theorem charsOfNatAux_ne_nil {b fuel n : Nat} (hn : 0 < n) (hf : n ≤ fuel) :
    charsOfNatAux b fuel n ≠ [] := by
  cases fuel with
  | zero => omega
  | succ f =>
    cases n with
    | zero => omega
    | succ k =>
      rw [charsOfNatAux]
      simp

theorem charsOfNat_ne_nil (b n : Nat) : charsOfNat b n ≠ [] := by
  rw [charsOfNat]
  by_cases hn : n = 0
  · rw [if_pos hn]
    simp
  · rw [if_neg hn]
    exact charsOfNatAux_ne_nil (by omega) (by omega)

theorem charsOfNatAux_foldl {b : Nat} (hb : 2 ≤ b)
    (hd : ∀ d, d < b → digitToNat (Nat.digitChar d) = d) :
    ∀ fuel n acc, n ≤ fuel →
      (charsOfNatAux b fuel n).foldl (fun a c => a * b + digitToNat c) acc =
        acc * b ^ (charsOfNatAux b fuel n).length + n := by
  intro fuel
  induction fuel with
  | zero =>
    intro n acc hn
    have : n = 0 := by omega
    subst this
    simp [charsOfNatAux]
  | succ f ih =>
    intro n acc hn
    cases n with
    | zero => simp [charsOfNatAux]
    | succ k =>
      rw [charsOfNatAux]
      have hdiv : (k + 1) / b ≤ f := by
        have h1 : (k + 1) / b < k + 1 := Nat.div_lt_self (by omega) (by omega)
        omega
      rw [List.foldl_append, ih ((k + 1) / b) acc hdiv]
      have hmod : (k + 1) % b < b := Nat.mod_lt _ (by omega)
      simp only [List.foldl_cons, List.foldl_nil, List.length_append,
        List.length_singleton]
      rw [hd _ hmod]
      have hdm : (k + 1) / b * b + (k + 1) % b = k + 1 := by
        rw [Nat.mul_comm]
        exact Nat.div_add_mod _ _
      calc (acc * b ^ (charsOfNatAux b f ((k + 1) / b)).length + (k + 1) / b)
            * b + (k + 1) % b
          = acc * (b ^ (charsOfNatAux b f ((k + 1) / b)).length * b) +
              ((k + 1) / b * b + (k + 1) % b) := by ring
        _ = acc * b ^ ((charsOfNatAux b f ((k + 1) / b)).length + 1) +
              (k + 1) := by rw [hdm, pow_succ]

theorem parseNatBase_charsOfNat {b : Nat} {valid : Char → Bool} (hb : 2 ≤ b)
    (hd : ∀ d, d < b →
      valid (Nat.digitChar d) = true ∧ digitToNat (Nat.digitChar d) = d)
    (n : Nat) : parseNatBase b valid (charsOfNat b n) = some n := by
  have hall : (charsOfNat b n).all valid = true := by
    rw [List.all_eq_true]
    intro c hc
    obtain ⟨d, hdb, rfl⟩ := charsOfNat_mem hb hc
    exact (hd d hdb).1
  rw [parseNatBase, if_pos ⟨charsOfNat_ne_nil b n, hall⟩]
  rw [charsOfNat]
  by_cases hn : n = 0
  · subst hn
    rw [if_pos rfl]
    simp only [List.foldl_cons, List.foldl_nil]
    have h0 : digitToNat '0' = 0 := by decide
    simp [h0]
  · rw [if_neg hn]
    rw [charsOfNatAux_foldl hb (fun d hdb => (hd d hdb).2) n n 0 (le_refl n)]
    simp

theorem parseDecNat_charsOfNat (n : Nat) :
    parseDecNat (charsOfNat 10 n) = some n := by
  rw [parseDecNat]
  exact parseNatBase_charsOfNat (by omega) (by decide) n

theorem parseHexNat_charsOfNat (n : Nat) :
    parseHexNat (charsOfNat 16 n) = some n := by
  rw [parseHexNat]
  exact parseNatBase_charsOfNat (by omega) (by decide) n

theorem parseU8_charsOfNat {n : Nat} (h : n ≤ 255) :
    parseU8 (charsOfNat 10 n) = some n := by
  simp [parseU8, parseDecNat_charsOfNat, h]

theorem parseByte_charsOfNat (v : Fin 256) :
    parseByte (charsOfNat 10 v.val) = some v := by
  simp only [parseByte, parseDecNat_charsOfNat]
  rw [dif_pos (Nat.le_of_lt_succ v.isLt)]

theorem parseHexGroup_charsOfNat (v : Fin 65536) :
    parseHexGroup (charsOfNat 16 v.val) = some v := by
  simp only [parseHexGroup, parseHexNat_charsOfNat]
  rw [dif_pos (Nat.le_of_lt_succ v.isLt)]

theorem charsOfNat10_sep_free {n : Nat} {c : Char}
    (hc : c ∈ charsOfNat 10 n) : c ≠ '/' ∧ c ≠ '.' ∧ c ≠ ':' := by
  obtain ⟨d, hdb, rfl⟩ := charsOfNat_mem (by omega) hc
  clear hc
  revert d
  decide

theorem charsOfNat16_sep_free {n : Nat} {c : Char}
    (hc : c ∈ charsOfNat 16 n) : c ≠ '/' ∧ c ≠ '.' ∧ c ≠ ':' := by
  obtain ⟨d, hdb, rfl⟩ := charsOfNat_mem (by omega) hc
  clear hc
  revert d
  decide

theorem not_mem_append_chars {c : Char} {x y : List Char} (hx : c ∉ x)
    (hy : c ∉ y) : c ∉ x ++ y :=
  fun h => (List.mem_append.mp h).elim hx hy

theorem not_mem_colon_cons {c : Char} {l : List Char} (hc : c ≠ ':')
    (hl : c ∉ l) : c ∉ ':' :: l :=
  fun h => (List.mem_cons.mp h).elim hc hl

theorem not_mem_dot_cons {c : Char} {l : List Char} (hc : c ≠ '.')
    (hl : c ∉ l) : c ∉ '.' :: l :=
  fun h => (List.mem_cons.mp h).elim hc hl

theorem formatIpv4_no_slash (a : Ipv4Addr) : '/' ∉ formatIpv4 a := by
  have hg : ∀ n, '/' ∉ charsOfNat 10 n :=
    fun n h => (charsOfNat10_sep_free h).1 rfl
  rw [formatIpv4]
  exact not_mem_append_chars (hg _) (not_mem_dot_cons (by decide)
    (not_mem_append_chars (hg _) (not_mem_dot_cons (by decide)
      (not_mem_append_chars (hg _) (not_mem_dot_cons (by decide) (hg _))))))

theorem formatIpv6_no_slash (a : Ipv6Addr) : '/' ∉ formatIpv6 a := by
  have hg : ∀ n, '/' ∉ charsOfNat 16 n :=
    fun n h => (charsOfNat16_sep_free h).1 rfl
  rw [formatIpv6]
  exact not_mem_append_chars (hg _) (not_mem_colon_cons (by decide)
    (not_mem_append_chars (hg _) (not_mem_colon_cons (by decide)
      (not_mem_append_chars (hg _) (not_mem_colon_cons (by decide)
        (not_mem_append_chars (hg _) (not_mem_colon_cons (by decide)
          (not_mem_append_chars (hg _) (not_mem_colon_cons (by decide)
            (not_mem_append_chars (hg _) (not_mem_colon_cons (by decide)
              (not_mem_append_chars (hg _)
                (not_mem_colon_cons (by decide) (hg _))))))))))))))

theorem splitSep_formatIpv4 (a : Ipv4Addr) :
    splitSep '.' (formatIpv4 a) =
      [charsOfNat 10 a.o1.val, charsOfNat 10 a.o2.val,
        charsOfNat 10 a.o3.val, charsOfNat 10 a.o4.val] := by
  have hg : ∀ n, '.' ∉ charsOfNat 10 n :=
    fun n h => (charsOfNat10_sep_free h).2.1 rfl
  rw [formatIpv4, splitSep_append (hg _), splitSep_append (hg _),
    splitSep_append (hg _), splitSep_of_not_mem (hg _)]

theorem splitSep_formatIpv6 (a : Ipv6Addr) :
    splitSep ':' (formatIpv6 a) =
      [charsOfNat 16 a.s1.val, charsOfNat 16 a.s2.val,
        charsOfNat 16 a.s3.val, charsOfNat 16 a.s4.val,
        charsOfNat 16 a.s5.val, charsOfNat 16 a.s6.val,
        charsOfNat 16 a.s7.val, charsOfNat 16 a.s8.val] := by
  have hg : ∀ n, ':' ∉ charsOfNat 16 n :=
    fun n h => (charsOfNat16_sep_free h).2.2 rfl
  rw [formatIpv6, splitSep_append (hg _), splitSep_append (hg _),
    splitSep_append (hg _), splitSep_append (hg _), splitSep_append (hg _),
    splitSep_append (hg _), splitSep_append (hg _),
    splitSep_of_not_mem (hg _)]

theorem parseIpv4_formatIpv4 (a : Ipv4Addr) :
    parseIpv4 (formatIpv4 a) = some a := by
  rw [parseIpv4, splitSep_formatIpv4]
  simp [parseByte_charsOfNat]

theorem parseIpv6_formatIpv6 (a : Ipv6Addr) :
    parseIpv6 (formatIpv6 a) = some a := by
  rw [parseIpv6, splitSep_formatIpv6]
  simp [parseHexGroup_charsOfNat]

theorem formatIpv6_ne_nil (a : Ipv6Addr) : formatIpv6 a ≠ [] := by
  rw [formatIpv6]
  intro h
  exact charsOfNat_ne_nil 16 a.s1.val (List.append_eq_nil.mp h).1

theorem u32_leading_zeros_le (x : Nat) : u32_leading_zeros x ≤ 32 := by
  rw [u32_leading_zeros]
  calc (((List.range 32).reverse).takeWhile (fun i => !(x.testBit i))).length
      ≤ ((List.range 32).reverse).length := ( List.takeWhile_prefix _).length_le
    _ = 32 := by simp

theorem u128_leading_zeros_le (x : Nat) : u128_leading_zeros x ≤ 128 := by
  rw [u128_leading_zeros]
  calc (((List.range 128).reverse).takeWhile (fun i => !(x.testBit i))).length
      ≤ ((List.range 128).reverse).length := ( List.takeWhile_prefix _).length_le
    _ = 128 := by simp

theorem from_range_v4_cidr_le {s e : Ipv4Addr} {r : IpAddrRangeV4}
    (h : IpAddrRangeV4.from_range s e = .Ok r) : r.cidr ≤ 32 := by
  by_cases hse : s = e
  · subst hse
    rw [from_range_v4_refl] at h
    cases h
    exact le_refl 32
  · rw [from_range_v4_general s e hse] at h
    by_cases h1 : ipv4_to_u32 s &&& derived_host_mask_v4 s e = 0
    · rw [if_neg (fun hx => hx h1)] at h
      by_cases h2 : ipv4_to_u32 e = ipv4_to_u32 s ||| derived_host_mask_v4 s e
      · rw [if_neg (fun hx => hx h2)] at h
        cases h
        exact u32_leading_zeros_le _
      · rw [if_pos h2] at h
        cases h
    · rw [if_pos h1] at h
      cases h

theorem from_range_v6_cidr_le {s e : Ipv6Addr} {r : IpAddrRangeV6}
    (h : IpAddrRangeV6.from_range s e = .Ok r) : r.cidr ≤ 128 := by
  by_cases hse : s = e
  · subst hse
    rw [from_range_v6_refl] at h
    cases h
    exact le_refl 128
  · rw [from_range_v6_general s e hse] at h
    by_cases h1 : ipv6_to_u128 s &&& derived_host_mask_v6 s e = 0
    · rw [if_neg (fun hx => hx h1)] at h
      by_cases h2 : ipv6_to_u128 e = ipv6_to_u128 s ||| derived_host_mask_v6 s e
      · rw [if_neg (fun hx => hx h2)] at h
        cases h
        exact u128_leading_zeros_le _
      · rw [if_pos h2] at h
        cases h
    · rw [if_pos h1] at h
      cases h

theorem from_str_display_v4 (r : IpAddrRangeV4) (h : r.cidr ≤ 32) :
    IpAddrRangeV4.from_str (IpAddrRangeV4.display r) = .Ok r := by
  rw [IpAddrRangeV4.display, IpAddrRangeV4.from_str,
    splitAtFirstSlash_append (formatIpv4_no_slash r.network_address)]
  have h255 : r.cidr ≤ 255 := by omega
  have hnlt : ¬(32 < r.cidr) := by omega
  simp [parseIpv4_formatIpv4, parseU8_charsOfNat h255, hnlt, IpAddrRangeV4.new]

theorem from_str_display_v6 (r : IpAddrRangeV6) (h : r.cidr ≤ 128) :
    IpAddrRangeV6.from_str (IpAddrRangeV6.display r) = .Ok r := by
  have hmf : '/' ∉ charsOfNat 10 r.cidr :=
    fun hx => (charsOfNat10_sep_free hx).1 rfl
  rw [IpAddrRangeV6.display, IpAddrRangeV6.from_str,
    splitAtLastSlash_append hmf]
  have ha : (formatIpv6 r.network_address).length ≠ 0 := by
    simpa using formatIpv6_ne_nil r.network_address
  have hm : (charsOfNat 10 r.cidr).length ≠ 0 := by
    simpa using charsOfNat_ne_nil 10 r.cidr
  have h255 : r.cidr ≤ 255 := by omega
  have hnlt : ¬(128 < r.cidr) := by omega
  simp [ha, hm, parseIpv6_formatIpv6, parseU8_charsOfNat h255, hnlt,
    IpAddrRangeV6.new]

/-- C8: every block a successful `from_range` produces round-trips through
the text codec: formatting it, parsing that string back and formatting the
parse result reproduces the same string, for both families. -/
theorem display_round_trip :
    (∀ s e r, IpAddrRangeV4.from_range s e = .Ok r →
        (IpAddrRangeV4.from_str (IpAddrRangeV4.display r)).map
          IpAddrRangeV4.display = .Ok (IpAddrRangeV4.display r)) ∧
    (∀ s e r, IpAddrRangeV6.from_range s e = .Ok r →
        (IpAddrRangeV6.from_str (IpAddrRangeV6.display r)).map
          IpAddrRangeV6.display = .Ok (IpAddrRangeV6.display r)) := by
  constructor
  · intro s e r h
    rw [from_str_display_v4 r (from_range_v4_cidr_le h)]
    rfl
  · intro s e r h
    rw [from_str_display_v6 r (from_range_v6_cidr_le h)]
    rfl

/-- Witness for C8: the `/24` block derived from `(127.0.0.0, 127.0.0.255)`
and the `/112` block derived from `(::, ::ffff)`. -/
theorem display_round_trip_witness :
    (IpAddrRangeV4.from_str
        (IpAddrRangeV4.display ⟨⟨127, 0, 0, 0⟩, 24⟩)).map
      IpAddrRangeV4.display = .Ok (IpAddrRangeV4.display ⟨⟨127, 0, 0, 0⟩, 24⟩) ∧
    (IpAddrRangeV6.from_str
        (IpAddrRangeV6.display ⟨⟨0, 0, 0, 0, 0, 0, 0, 0⟩, 112⟩)).map
      IpAddrRangeV6.display =
        .Ok (IpAddrRangeV6.display ⟨⟨0, 0, 0, 0, 0, 0, 0, 0⟩, 112⟩) :=
  ⟨display_round_trip.1 ⟨127, 0, 0, 0⟩ ⟨127, 0, 0, 255⟩ ⟨⟨127, 0, 0, 0⟩, 24⟩
      (by decide),
    display_round_trip.2 ⟨0, 0, 0, 0, 0, 0, 0, 0⟩ ⟨0, 0, 0, 0, 0, 0, 0, 65535⟩
      ⟨⟨0, 0, 0, 0, 0, 0, 0, 0⟩, 112⟩ (by decide)⟩
